import Mathlib

/-!
Verification of the gmail-cli core: a shallow embedding of the
authentication flow (src/auth.rs), the token-manager retry logic
(src/main.rs, get_client), and the label/message domain layer
(src/api.rs), together with proofs of the specified properties.

Network calls are modelled by passing their outcomes as explicit
arguments; every function additionally reports which remote calls it
issued, so reachability properties ("the exchange step is unreachable",
"no create call is made") are provable.
-/

namespace GmailCli

/-! ## Token data model (src/config.rs `Tokens`, src/auth.rs) -/

/-- The persisted access/refresh token pair (`Tokens` in the source). -/
structure Tokens where
  access_token : String
  refresh_token : String
deriving DecidableEq, Repr

/-- Error cases of the authentication flow, one per `anyhow` bail/context
site in src/auth.rs. -/
inductive AuthError where
  | NoCode
  | NoState
  | CsrfMismatch
  | ExchangeFailed
  | NoRefreshToken
  | RefreshFailed
deriving DecidableEq, Repr

/-- A token-endpoint response body: an access token and an optional new
refresh token, as read off `token_result` in src/auth.rs. -/
structure TokenResponse where
  access_token : String
  refresh_token : Option String
deriving DecidableEq, Repr

/-- First value for a query key, as `url::Url::query_pairs().find` does in
`wait_for_callback` (src/auth.rs lines 90-100). -/
def lookupQuery (key : String) (pairs : List (String × String)) : Option String :=
  (pairs.find? (fun p => p.1 == key)).map (fun p => p.2)

/-- Embedding of `wait_for_callback` (src/auth.rs lines 74-110) from the
point where the callback request's query pairs are in hand: extract
`code` (else fail), extract `state` (else fail), compare `state` against
the expected CSRF token, and return the authorization code on match. -/
def wait_for_callback (pairs : List (String × String)) (expected_csrf : String) :
    Except AuthError String :=
  match lookupQuery "code" pairs with
  | none => .error .NoCode
  | some code =>
    match lookupQuery "state" pairs with
    | none => .error .NoState
    | some state =>
      if state == expected_csrf then .ok code else .error .CsrfMismatch

/-- Embedding of the tail of `login` (src/auth.rs lines 53-71): consume the
callback, then exchange the code at the token endpoint (`exchange` maps a
code to the endpoint's outcome), then require a refresh token. The boolean
records whether the exchange request was issued. -/
def login_after_callback (pairs : List (String × String)) (expected_csrf : String)
    (exchange : String → Except AuthError TokenResponse) :
    Except AuthError Tokens × Bool :=
  match wait_for_callback pairs expected_csrf with
  | .error e => (.error e, false)
  | .ok code =>
    match exchange code with
    | .error _ => (.error .ExchangeFailed, true)
    | .ok r =>
      match r.refresh_token with
      | none => (.error .NoRefreshToken, true)
      | some rt => (.ok ⟨r.access_token, rt⟩, true)

/-- Embedding of `refresh_token` (src/auth.rs lines 112-136): given the
caller-supplied refresh token and the token endpoint's outcome, build the
new pair; a response without a refresh token keeps the caller's one
(`unwrap_or_else`). The returned pair is also the one persisted by
`config::save_tokens`. -/
def refresh_token (refresh : String) (endpoint : Except AuthError TokenResponse) :
    Except AuthError Tokens :=
  match endpoint with
  | .error _ => .error .RefreshFailed
  | .ok r => .ok ⟨r.access_token, (r.refresh_token.getD refresh)⟩

/-! ## TokenManager (src/main.rs `get_client`, lines 130-153) -/

/-- The client handle: `api::Client::new` keeps only the access token
(plus an HTTP transport with no observable state). -/
structure Client where
  access_token : String
deriving DecidableEq, Repr

/-- Embedding of `get_client` (src/main.rs lines 130-153) after the tokens
are loaded: probe with `list_messages(None, "INBOX", 1)` using the stored
access token; on success return that client, on any failure refresh once
and return a client over the refreshed access token, propagating a
refresh failure. The natural number counts refresh invocations. -/
def get_client (tokens : Tokens) (probe : String → Except String Unit)
    (refreshResult : Except AuthError Tokens) :
    Except AuthError Client × Nat :=
  match probe tokens.access_token with
  | .ok _ => (.ok ⟨tokens.access_token⟩, 0)
  | .error _ =>
    match refreshResult with
    | .ok newTokens => (.ok ⟨newTokens.access_token⟩, 1)
    | .error e => (.error e, 1)

/-! ## Labels (src/api.rs) -/

/-- A remote label (src/api.rs `Label`); the serde `label_type` field plays
no role in resolution and is omitted from lookups below exactly as the
source never reads it there. -/
structure Label where
  id : String
  name : String
deriving DecidableEq, Repr

/-- ASCII lowercasing of one character, as `u8::to_ascii_lowercase` acts
on the UTF-8 bytes (only `A`..`Z` change, which is char-by-char). -/
def asciiLower (c : Char) : Char :=
  if 65 ≤ c.toNat ∧ c.toNat ≤ 90 then Char.ofNat (c.toNat + 32) else c

/-- Embedding of `str::eq_ignore_ascii_case`, used at src/api.rs lines 178
and 248: equality after ASCII-lowercasing every character. -/
def eqIgnoreAsciiCase (a b : String) : Bool :=
  a.data.map asciiLower == b.data.map asciiLower

/-- Embedding of `is_system_label` (src/api.rs lines 321-338): exact match
against the fixed thirteen system label names. -/
def is_system_label (label : String) : Bool :=
  label == "INBOX" || label == "SENT" || label == "DRAFT" || label == "TRASH" ||
  label == "SPAM" || label == "STARRED" || label == "IMPORTANT" || label == "UNREAD" ||
  label == "CATEGORY_PERSONAL" || label == "CATEGORY_SOCIAL" ||
  label == "CATEGORY_PROMOTIONS" || label == "CATEGORY_UPDATES" ||
  label == "CATEGORY_FORUMS"

/-- The loop shared by `get_or_create_label` (src/api.rs lines 176-182) and
`find_label` (lines 246-252): first label in listing order whose display
name matches case-insensitively. -/
def findLabelIn (name : String) : List Label → Option String
  | [] => none
  | l :: rest => if eqIgnoreAsciiCase l.name name then some l.id else findLabelIn name rest

/-- Embedding of `get_or_create_label` (src/api.rs lines 173-186): scan the
listed labels (`labels` is the `LabelList.labels` field of a successful
listing); if a case-insensitive match exists return its id, otherwise
create. `created` is the label a successful create call would return; the
boolean records whether the create call was issued. -/
def get_or_create_label (labels : Option (List Label)) (created : Label) (name : String) :
    String × Bool :=
  match labels with
  | some ls =>
    match findLabelIn name ls with
    | some id => (id, false)
    | none => (created.id, true)
  | none => (created.id, true)

/-- Label-resolution outcome of `add_label` (src/api.rs lines 224-232),
before the final `modify_labels` call: the resolved id, whether the label
listing was requested, and whether a create call was issued. -/
def add_label_resolve (labels : Option (List Label)) (created : Label) (name : String) :
    String × Bool × Bool :=
  if is_system_label name then (name, false, false)
  else
    let r := get_or_create_label labels created name
    (r.1, true, r.2)

/-- Label-resolution outcome of `remove_label` (src/api.rs lines 234-242):
either the resolved id (then `modify_labels` is issued with it) or the
not-found error carrying the offending name (`Label not found: {name}`,
and `modify_labels` is never reached). The boolean records whether the
label listing was requested by `find_label`. -/
def remove_label_resolve (labels : Option (List Label)) (name : String) :
    Except String String × Bool :=
  if is_system_label name then (.ok name, false)
  else
    match findLabelIn name (labels.getD []) with
    | some id => (.ok id, true)
    | none => (.error name, true)

/-! ## base64url without padding (the `BASE64_URL_SAFE_NO_PAD` engine)

Bytes are modelled as natural numbers below 256; sextets as naturals
below 64. The decoder is strict exactly as the `base64` crate's default
engine: it rejects characters outside the URL-safe alphabet, rejects a
trailing group of one character, and rejects non-zero trailing bits in a
final partial group. -/

/-- Character of the URL-safe base64 alphabet for a sextet value. -/
def b64Char (n : Nat) : Char :=
  if n < 26 then Char.ofNat (65 + n)
  else if n < 52 then Char.ofNat (97 + (n - 26))
  else if n < 62 then Char.ofNat (48 + (n - 52))
  else if n = 62 then Char.ofNat 45
  else Char.ofNat 95

/-- Sextet value of a character of the URL-safe base64 alphabet. -/
def b64CharVal (c : Char) : Option Nat :=
  if 65 ≤ c.toNat ∧ c.toNat ≤ 90 then some (c.toNat - 65)
  else if 97 ≤ c.toNat ∧ c.toNat ≤ 122 then some (c.toNat - 97 + 26)
  else if 48 ≤ c.toNat ∧ c.toNat ≤ 57 then some (c.toNat - 48 + 52)
  else if c.toNat = 45 then some 62
  else if c.toNat = 95 then some 63
  else none

/-- Bytes to sextet values, three bytes to four sextets, with the
standard partial final groups (no padding). -/
def b64EncodeSextets : List Nat → List Nat
  | [] => []
  | [b0] => [b0 / 4, b0 % 4 * 16]
  | [b0, b1] => [b0 / 4, b0 % 4 * 16 + b1 / 16, b1 % 16 * 4]
  | b0 :: b1 :: b2 :: rest =>
    b0 / 4 :: (b0 % 4 * 16 + b1 / 16) :: (b1 % 16 * 4 + b2 / 64) :: b2 % 64 ::
      b64EncodeSextets rest

/-- Sextet values back to bytes; fails on a lone trailing sextet and on
non-zero trailing bits in a partial final group. -/
def b64DecodeSextets : List Nat → Option (List Nat)
  | [] => some []
  | [_] => none
  | [s0, s1] => if s1 % 16 = 0 then some [s0 * 4 + s1 / 16] else none
  | [s0, s1, s2] =>
    if s2 % 4 = 0 then some [s0 * 4 + s1 / 16, s1 % 16 * 16 + s2 / 4] else none
  | s0 :: s1 :: s2 :: s3 :: rest =>
    match b64DecodeSextets rest with
    | some bs => some ((s0 * 4 + s1 / 16) :: (s1 % 16 * 16 + s2 / 4) :: (s2 % 4 * 64 + s3) :: bs)
    | none => none

/-- `BASE64_URL_SAFE_NO_PAD.encode` on a byte string. -/
def b64Encode (bytes : List Nat) : String :=
  String.mk ((b64EncodeSextets bytes).map b64Char)

/-- Map every character to its sextet value, failing on the first
character outside the alphabet. -/
def sextetsOfChars : List Char → Option (List Nat)
  | [] => some []
  | c :: rest =>
    match b64CharVal c, sextetsOfChars rest with
    | some v, some vs => some (v :: vs)
    | _, _ => none

/-- `BASE64_URL_SAFE_NO_PAD.decode` on a string. -/
def b64Decode (s : String) : Option (List Nat) :=
  match sextetsOfChars s.data with
  | some sextets => b64DecodeSextets sextets
  | none => none

/-! ## UTF-8 (Rust `String::from_utf8` and the bytes of a Rust `String`) -/

/-- UTF-8 bytes of one Unicode scalar value. -/
def utf8EncodeChar (c : Char) : List Nat :=
  if c.toNat < 0x80 then [c.toNat]
  else if c.toNat < 0x800 then [0xC0 + c.toNat / 64, 0x80 + c.toNat % 64]
  else if c.toNat < 0x10000 then
    [0xE0 + c.toNat / 4096, 0x80 + c.toNat / 64 % 64, 0x80 + c.toNat % 64]
  else
    [0xF0 + c.toNat / 262144, 0x80 + c.toNat / 4096 % 64, 0x80 + c.toNat / 64 % 64,
      0x80 + c.toNat % 64]

/-- UTF-8 bytes of a character list. -/
def utf8EncodeList : List Char → List Nat
  | [] => []
  | c :: rest => utf8EncodeChar c ++ utf8EncodeList rest

/-- UTF-8 bytes of a Rust `String` (which is always valid UTF-8). -/
def utf8Encode (s : String) : List Nat := utf8EncodeList s.data

/-- Strict UTF-8 decoding of one scalar value from the head of a byte
list: rejects stray continuation bytes, overlong forms, surrogates and
values above 0x10FFFF, exactly as Rust's `String::from_utf8` does. -/
def utf8DecodeChar : List Nat → Option (Char × List Nat)
  | [] => none
  | b0 :: t0 =>
    if b0 < 0x80 then some (Char.ofNat b0, t0)
    else if b0 < 0xC2 then none
    else if b0 < 0xE0 then
      match t0 with
      | b1 :: t1 =>
        if 0x80 ≤ b1 ∧ b1 < 0xC0 then
          some (Char.ofNat ((b0 - 0xC0) * 64 + (b1 - 0x80)), t1)
        else none
      | [] => none
    else if b0 < 0xF0 then
      match t0 with
      | b1 :: b2 :: t2 =>
        if 0x80 ≤ b1 ∧ b1 < 0xC0 ∧ 0x80 ≤ b2 ∧ b2 < 0xC0 then
          if (b0 - 0xE0) * 4096 + (b1 - 0x80) * 64 + (b2 - 0x80) < 0x800 ∨
             (0xD800 ≤ (b0 - 0xE0) * 4096 + (b1 - 0x80) * 64 + (b2 - 0x80) ∧
              (b0 - 0xE0) * 4096 + (b1 - 0x80) * 64 + (b2 - 0x80) < 0xE000) then none
          else some (Char.ofNat ((b0 - 0xE0) * 4096 + (b1 - 0x80) * 64 + (b2 - 0x80)), t2)
        else none
      | _ => none
    else if b0 < 0xF5 then
      match t0 with
      | b1 :: b2 :: b3 :: t3 =>
        if 0x80 ≤ b1 ∧ b1 < 0xC0 ∧ 0x80 ≤ b2 ∧ b2 < 0xC0 ∧ 0x80 ≤ b3 ∧ b3 < 0xC0 then
          if (b0 - 0xF0) * 262144 + (b1 - 0x80) * 4096 + (b2 - 0x80) * 64 + (b3 - 0x80)
               < 0x10000 ∨
             0x110000 ≤
               (b0 - 0xF0) * 262144 + (b1 - 0x80) * 4096 + (b2 - 0x80) * 64 + (b3 - 0x80)
          then none
          else
            some (Char.ofNat
              ((b0 - 0xF0) * 262144 + (b1 - 0x80) * 4096 + (b2 - 0x80) * 64 + (b3 - 0x80)),
              t3)
        else none
      | _ => none
    else none

theorem utf8DecodeChar_shrinks :
    ∀ l c rest, utf8DecodeChar l = some (c, rest) → rest.length < l.length := by
  intro l c rest h
  match l with
  | [] => simp [utf8DecodeChar] at h
  | [b0] =>
    simp only [utf8DecodeChar] at h
    repeat' split at h
    all_goals simp_all
  | [b0, b1] =>
    simp only [utf8DecodeChar] at h
    repeat' split at h
    all_goals simp_all
  | [b0, b1, b2] =>
    simp only [utf8DecodeChar] at h
    repeat' split at h
    all_goals (simp_all; try omega)
  | b0 :: b1 :: b2 :: b3 :: t =>
    simp only [utf8DecodeChar] at h
    repeat' split at h
    all_goals (simp_all; try omega)

/-- Fuel-bounded strict UTF-8 decoding; the fuel only bounds the
recursion depth and never runs out when it starts at the list length,
because every accepted character consumes at least one byte. -/
def utf8DecodeAux : Nat → List Nat → Option (List Char)
  | _, [] => some []
  | 0, _ :: _ => none
  | fuel + 1, b :: t =>
    match utf8DecodeChar (b :: t) with
    | none => none
    | some p => (utf8DecodeAux fuel p.2).map (fun cs => p.1 :: cs)

/-- Strict UTF-8 decoding of a whole byte list, as `String::from_utf8`
(at the character-list level). -/
def utf8Decode (l : List Nat) : Option (List Char) := utf8DecodeAux l.length l

theorem utf8DecodeAux_fuel_eq :
    ∀ fuel1 fuel2 l, l.length ≤ fuel1 → l.length ≤ fuel2 →
      utf8DecodeAux fuel1 l = utf8DecodeAux fuel2 l := by
  intro fuel1
  induction fuel1 with
  | zero =>
    intro fuel2 l h1 _
    have hl : l = [] := by cases l <;> simp_all
    subst hl
    cases fuel2 <;> rfl
  | succ f ih =>
    intro fuel2 l h1 h2
    cases l with
    | nil => cases fuel2 <;> rfl
    | cons b t =>
      cases fuel2 with
      | zero => simp at h2
      | succ f2 =>
        simp only [utf8DecodeAux]
        cases hdc : utf8DecodeChar (b :: t) with
        | none => rfl
        | some p =>
          have hlt : p.2.length < t.length + 1 := by
            simpa using utf8DecodeChar_shrinks (b :: t) p.1 p.2 (by rw [hdc])
          have h1c : t.length + 1 ≤ f + 1 := by simpa using h1
          have h2c : t.length + 1 ≤ f2 + 1 := by simpa using h2
          have heq := ih f2 p.2 (by omega) (by omega)
          simp [heq]

/-- Rust `String::from_utf8(bytes).ok()`. -/
def fromUtf8 (bytes : List Nat) : Option String :=
  (utf8Decode bytes).map String.mk

/-! ## Round-trip lemmas for the two codecs -/

theorem utf8EncodeChar_lt_256 (c : Char) : ∀ b ∈ utf8EncodeChar c, b < 256 := by
  have hv : c.toNat < 0xD800 ∨ (0xDFFF < c.toNat ∧ c.toNat < 0x110000) := c.valid
  intro b hb
  unfold utf8EncodeChar at hb
  split at hb
  · simp at hb; omega
  · split at hb
    · simp at hb; rcases hb with h | h <;> omega
    · split at hb
      · simp at hb; rcases hb with h | h | h <;> omega
      · simp at hb; rcases hb with h | h | h | h <;> omega

theorem utf8EncodeList_lt_256 (cs : List Char) : ∀ b ∈ utf8EncodeList cs, b < 256 := by
  induction cs with
  | nil => simp [utf8EncodeList]
  | cons c rest ih =>
    intro b hb
    simp only [utf8EncodeList, List.mem_append] at hb
    rcases hb with h | h
    · exact utf8EncodeChar_lt_256 c b h
    · exact ih b h

theorem utf8DecodeChar_encode (c : Char) (rest : List Nat) :
    utf8DecodeChar (utf8EncodeChar c ++ rest) = some (c, rest) := by
  have hv : c.toNat < 0xD800 ∨ (0xDFFF < c.toNat ∧ c.toNat < 0x110000) := c.valid
  have hofnat : Char.ofNat c.toNat = c := Char.ofNat_toNat c
  unfold utf8EncodeChar
  split
  · simp only [List.cons_append, List.nil_append, utf8DecodeChar]
    rw [if_pos (by omega)]
    exact congrArg some (by rw [hofnat])
  · split
    · simp only [List.cons_append, List.nil_append, utf8DecodeChar]
      rw [if_neg (by omega), if_neg (by omega), if_pos (by omega), if_pos (by constructor <;> omega)]
      have harg : (0xC0 + c.toNat / 64 - 0xC0) * 64 + (0x80 + c.toNat % 64 - 0x80) = c.toNat := by
        omega
      rw [harg, hofnat]
    · split
      · simp only [List.cons_append, List.nil_append, utf8DecodeChar]
        rw [if_neg (by omega), if_neg (by omega), if_neg (by omega), if_pos (by omega),
          if_pos (by refine ⟨by omega, by omega, by omega, by omega⟩)]
        have harg : (0xE0 + c.toNat / 4096 - 0xE0) * 4096 + (0x80 + c.toNat / 64 % 64 - 0x80) * 64 +
            (0x80 + c.toNat % 64 - 0x80) = c.toNat := by omega
        rw [if_neg (by omega), harg, hofnat]
      · simp only [List.cons_append, List.nil_append, utf8DecodeChar]
        rw [if_neg (by omega), if_neg (by omega), if_neg (by omega), if_neg (by omega),
          if_pos (by omega),
          if_pos (by refine ⟨by omega, by omega, by omega, by omega, by omega, by omega⟩)]
        have harg : (0xF0 + c.toNat / 262144 - 0xF0) * 262144 +
            (0x80 + c.toNat / 4096 % 64 - 0x80) * 4096 +
            (0x80 + c.toNat / 64 % 64 - 0x80) * 64 + (0x80 + c.toNat % 64 - 0x80) = c.toNat := by
          omega
        rw [if_neg (by omega), harg, hofnat]

theorem utf8Decode_nil : utf8Decode [] = some [] := rfl

theorem utf8Decode_step (l : List Nat) (c : Char) (rest : List Nat)
    (h : utf8DecodeChar l = some (c, rest)) :
    utf8Decode l = (utf8Decode rest).map (fun cs => c :: cs) := by
  have hlt := utf8DecodeChar_shrinks l c rest h
  cases l with
  | nil => simp [utf8DecodeChar] at h
  | cons b t =>
    show utf8DecodeAux (t.length + 1) (b :: t) = _
    simp only [utf8DecodeAux, h]
    rw [utf8DecodeAux_fuel_eq t.length rest.length rest (by simp at hlt; omega) le_rfl]
    rfl

theorem utf8Decode_encodeList (cs : List Char) :
    utf8Decode (utf8EncodeList cs) = some cs := by
  induction cs with
  | nil => exact utf8Decode_nil
  | cons c rest ih =>
    rw [show utf8EncodeList (c :: rest) = utf8EncodeChar c ++ utf8EncodeList rest from rfl,
      utf8Decode_step _ c _ (utf8DecodeChar_encode c _), ih]
    rfl

theorem b64CharVal_b64Char : ∀ n, n < 64 → b64CharVal (b64Char n) = some n := by decide

theorem b64EncodeSextets_lt_64 :
    ∀ bytes, (∀ b ∈ bytes, b < 256) → ∀ s ∈ b64EncodeSextets bytes, s < 64
  | [], _ => by simp [b64EncodeSextets]
  | [b0], h => by
    have hb0 : b0 < 256 := h b0 (by simp)
    simp only [b64EncodeSextets, List.mem_cons, List.not_mem_nil, or_false]
    intro s hs
    rcases hs with h1 | h1 <;> omega
  | [b0, b1], h => by
    have hb0 : b0 < 256 := h b0 (by simp)
    have hb1 : b1 < 256 := h b1 (by simp)
    simp only [b64EncodeSextets, List.mem_cons, List.not_mem_nil, or_false]
    intro s hs
    rcases hs with h1 | h1 | h1 <;> omega
  | b0 :: b1 :: b2 :: rest, h => by
    have hb0 : b0 < 256 := h b0 (by simp)
    have hb1 : b1 < 256 := h b1 (by simp)
    have hb2 : b2 < 256 := h b2 (by simp)
    have ih := b64EncodeSextets_lt_64 rest (fun b hb => h b (by simp [hb]))
    simp only [b64EncodeSextets, List.mem_cons]
    intro s hs
    rcases hs with h1 | h1 | h1 | h1 | h1
    · omega
    · omega
    · omega
    · omega
    · exact ih s h1

theorem b64DecodeSextets_encode :
    ∀ bytes, (∀ b ∈ bytes, b < 256) →
      b64DecodeSextets (b64EncodeSextets bytes) = some bytes
  | [], _ => by simp [b64EncodeSextets, b64DecodeSextets]
  | [b0], h => by
    have hb0 : b0 < 256 := h b0 (by simp)
    simp only [b64EncodeSextets, b64DecodeSextets]
    rw [if_pos (by omega)]
    exact congrArg some (by simp; omega)
  | [b0, b1], h => by
    have hb0 : b0 < 256 := h b0 (by simp)
    have hb1 : b1 < 256 := h b1 (by simp)
    simp only [b64EncodeSextets, b64DecodeSextets]
    rw [if_pos (by omega)]
    have e0 : b0 / 4 * 4 + (b0 % 4 * 16 + b1 / 16) / 16 = b0 := by omega
    have e1 : (b0 % 4 * 16 + b1 / 16) % 16 * 16 + b1 % 16 * 4 / 4 = b1 := by omega
    rw [e0, e1]
  | b0 :: b1 :: b2 :: rest, h => by
    have hb0 : b0 < 256 := h b0 (by simp)
    have hb1 : b1 < 256 := h b1 (by simp)
    have hb2 : b2 < 256 := h b2 (by simp)
    have ih := b64DecodeSextets_encode rest (fun b hb => h b (by simp [hb]))
    simp only [b64EncodeSextets, b64DecodeSextets, ih]
    have e0 : b0 / 4 * 4 + (b0 % 4 * 16 + b1 / 16) / 16 = b0 := by omega
    have e1 : (b0 % 4 * 16 + b1 / 16) % 16 * 16 + (b1 % 16 * 4 + b2 / 64) / 4 = b1 := by omega
    have e2 : (b1 % 16 * 4 + b2 / 64) % 4 * 64 + b2 % 64 = b2 := by omega
    rw [e0, e1, e2]

theorem sextetsOfChars_map_b64Char (sx : List Nat) (h : ∀ s ∈ sx, s < 64) :
    sextetsOfChars (sx.map b64Char) = some sx := by
  induction sx with
  | nil => simp [sextetsOfChars]
  | cons s rest ih =>
    simp only [List.map_cons, sextetsOfChars]
    rw [b64CharVal_b64Char s (h s (by simp)), ih (fun x hx => h x (by simp [hx]))]

theorem b64Decode_encode (bytes : List Nat) (h : ∀ b ∈ bytes, b < 256) :
    b64Decode (b64Encode bytes) = some bytes := by
  unfold b64Decode b64Encode
  rw [show (String.mk ((b64EncodeSextets bytes).map b64Char)).data =
    (b64EncodeSextets bytes).map b64Char from rfl]
  rw [sextetsOfChars_map_b64Char _ (b64EncodeSextets_lt_64 bytes h)]
  exact b64DecodeSextets_encode bytes h

theorem fromUtf8_utf8Encode (s : String) : fromUtf8 (utf8Encode s) = some s := by
  unfold fromUtf8 utf8Encode
  rw [utf8Decode_encodeList]
  rfl

/-! ## Message data model (src/api.rs) -/

/-- A body payload (src/api.rs `Body`): an optional base64url blob. -/
structure Body where
  data : Option String
deriving DecidableEq, Repr

/-- A body-tree node (src/api.rs `Part`): mime type, optional body,
optional nested parts. -/
inductive Part where
  | mk (mimeType : String) (body : Option Body) (parts : Option (List Part))

/-- The mime type of a part. -/
def Part.mimeType : Part → String
  | .mk m _ _ => m

/-- The body of a part. -/
def Part.body : Part → Option Body
  | .mk _ b _ => b

/-- The nested parts of a part. -/
def Part.parts : Part → Option (List Part)
  | .mk _ _ p => p

/-- A message header (src/api.rs `Header`). -/
structure Header where
  name : String
  value : String
deriving DecidableEq, Repr

/-- A message payload (src/api.rs `Payload`). -/
structure Payload where
  headers : Option (List Header)
  body : Option Body
  parts : Option (List Part)

/-- A fetched message (src/api.rs `Message`). -/
structure Message where
  id : String
  snippet : Option String
  payload : Option Payload
  label_ids : Option (List String)

/-- The body of the decode-and-return step shared by `get_body_text`
(src/api.rs lines 276-282) and `find_text_part` (lines 296-302): given a
node's optional body, `some r` means the source executes
`return String::from_utf8(decoded).ok()` with result `r` (so `r` itself
can be `none` on invalid UTF-8); `none` means no `return` fires there
(no body, no data, or base64url decode failure) and the search goes on. -/
def decodeStep (body : Option Body) : Option (Option String) :=
  match body with
  | some b =>
    match b.data with
    | some d =>
      match b64Decode d with
      | some bytes => some (fromUtf8 bytes)
      | none => none
    | none => none
  | none => none

mutual

/-- One iteration of the loop of `find_text_part` (src/api.rs lines
294-309): `some r` means the iteration on this part makes the function
return `r` (step one fired, or the recursion into the nested parts found
text); `none` means the loop moves on to the next sibling (which it also
does when the nested search came back empty). -/
def scanPart : Part → Option (Option String)
  | .mk mt b ps =>
    match (if mt == "text/plain" then decodeStep b else none) with
    | some r => some r
    | none =>
      match ps with
      | some nested =>
        match find_text_part nested with
        | some text => some (some text)
        | none => none
      | none => none

/-- Embedding of `find_text_part` (src/api.rs lines 293-311): walk the
parts in order; a `text/plain` part whose data base64url-decodes makes the
function return the UTF-8 decoding outcome at once; otherwise recurse
into nested parts before moving to the next sibling. -/
def find_text_part : List Part → Option String
  | [] => none
  | p :: rest =>
    match scanPart p with
    | some r => r
    | none => find_text_part rest

end

/-- Embedding of `Message::get_body_text` (src/api.rs lines 272-290): try
the direct top-level body first (a successful base64url decode makes the
function return the UTF-8 outcome immediately), then the parts, else
`None`. -/
def Message.get_body_text (m : Message) : Option String :=
  match m.payload with
  | none => none
  | some payload =>
    match decodeStep payload.body with
    | some r => r
    | none =>
      match payload.parts with
      | some parts => find_text_part parts
      | none => none

/-! ## Helper lemmas about label lookup -/

theorem findLabelIn_first (name : String) (pre post : List Label) (l : Label)
    (hpre : ∀ p ∈ pre, eqIgnoreAsciiCase p.name name = false)
    (hl : eqIgnoreAsciiCase l.name name = true) :
    findLabelIn name (pre ++ l :: post) = some l.id := by
  induction pre with
  | nil => simp [findLabelIn, hl]
  | cons p rest ih =>
    simp only [List.cons_append, findLabelIn]
    rw [if_neg (by simp [hpre p (by simp)])]
    exact ih (fun q hq => hpre q (by simp [hq]))

theorem findLabelIn_nomatch (name : String) (ls : List Label)
    (h : ∀ l ∈ ls, eqIgnoreAsciiCase l.name name = false) :
    findLabelIn name ls = none := by
  induction ls with
  | nil => rfl
  | cons l rest ih =>
    simp only [findLabelIn]
    rw [if_neg (by simp [h l (by simp)])]
    exact ih (fun q hq => h q (by simp [hq]))

/-! ## Helper lemmas about the body-tree search -/

theorem scanPart_undecodable_leaf (mt d : String) (hfail : b64Decode d = none) :
    scanPart (Part.mk mt (some ⟨some d⟩) none) = none := by
  simp [scanPart, decodeStep, hfail]

theorem find_text_part_skip (pre post : List Part) (p : Part)
    (hskip : scanPart p = none) :
    find_text_part (pre ++ p :: post) = find_text_part (pre ++ post) := by
  induction pre with
  | nil => simp [find_text_part, hskip]
  | cons q rest ih =>
    simp only [List.cons_append, find_text_part]
    cases scanPart q with
    | some r => rfl
    | none => exact ih

/-! ## Claim theorems -/

/-- C1: a login attempt whose callback carries a `state` query parameter
differing from the CSRF token generated for that attempt fails with the
CSRF-mismatch error, and the authorization code is never exchanged at the
token endpoint (for every possible exchange outcome, the exchange-issued
flag stays false). -/
theorem csrf_mismatch_aborts_login (pairs : List (String × String)) (expected_csrf : String)
    (exchange : String → Except AuthError TokenResponse) (code state : String)
    (hcode : lookupQuery "code" pairs = some code)
    (hstate : lookupQuery "state" pairs = some state)
    (hne : state ≠ expected_csrf) :
    login_after_callback pairs expected_csrf exchange = (.error .CsrfMismatch, false) := by
  unfold login_after_callback wait_for_callback
  rw [hcode, hstate]
  simp [hne]

theorem csrf_mismatch_aborts_login_witness :
    login_after_callback [("code", "c0"), ("state", "evil")] "good"
      (fun _ => .ok ⟨"at", some "rt"⟩) = (.error .CsrfMismatch, false) :=
  csrf_mismatch_aborts_login [("code", "c0"), ("state", "evil")] "good"
    (fun _ => .ok ⟨"at", some "rt"⟩) "c0" "evil" (by decide) (by decide) (by decide)

/-- C2: a successful refresh whose response carries no new refresh token
returns (and persists) the pair that keeps the caller-supplied refresh
token unchanged while taking the new access token. -/
theorem refresh_preserves_refresh_token (refresh : String) (r : TokenResponse)
    (hnone : r.refresh_token = none) :
    refresh_token refresh (.ok r) = .ok ⟨r.access_token, refresh⟩ := by
  unfold refresh_token
  simp [hnone]

theorem refresh_preserves_refresh_token_witness :
    refresh_token "r0" (.ok ⟨"a1", none⟩) = .ok ⟨"a1", "r0"⟩ :=
  refresh_preserves_refresh_token "r0" ⟨"a1", none⟩ rfl

/-- C3: `get_client` performs at most one refresh; a successful probe
returns the client over the stored access token with zero refreshes; a
failed probe triggers exactly one refresh, whose success yields a client
over the refreshed access token and whose failure propagates — in every
case the refresh count is exactly one after a probe failure. -/
theorem get_client_two_strikes (tokens : Tokens) (probe : String → Except String Unit)
    (refreshResult : Except AuthError Tokens) :
    (get_client tokens probe refreshResult).2 ≤ 1 ∧
    (probe tokens.access_token = .ok () →
      get_client tokens probe refreshResult = (.ok ⟨tokens.access_token⟩, 0)) ∧
    (∀ e newTokens, probe tokens.access_token = .error e → refreshResult = .ok newTokens →
      get_client tokens probe refreshResult = (.ok ⟨newTokens.access_token⟩, 1)) ∧
    (∀ e e2, probe tokens.access_token = .error e → refreshResult = .error e2 →
      get_client tokens probe refreshResult = (.error e2, 1)) := by
  refine ⟨?_, ?_, ?_, ?_⟩
  · unfold get_client
    cases probe tokens.access_token with
    | ok u => simp
    | error e => cases refreshResult <;> simp
  · intro hok
    unfold get_client
    rw [hok]
  · intro e newTokens hp hr
    unfold get_client
    rw [hp, hr]
  · intro e e2 hp hr
    unfold get_client
    rw [hp, hr]

theorem get_client_two_strikes_witness :
    get_client ⟨"a0", "r0"⟩ (fun _ => .error "HTTP 401") (.ok ⟨"a1", "r0"⟩) =
      (.ok ⟨"a1"⟩, 1) :=
  (get_client_two_strikes ⟨"a0", "r0"⟩ (fun _ => .error "HTTP 401")
    (.ok ⟨"a1", "r0"⟩)).2.2.1 "HTTP 401" ⟨"a1", "r0"⟩ rfl rfl

/-- C4 (counterexample to the claim as stated): at a `text/plain` leaf
whose payload base64url-decodes to invalid UTF-8 (`"_w"` decodes to the
byte 0xFF), the whole search returns `none` even though a later sibling
holds valid text, so the result does not equal the search with that
undecodable leaf absent. -/
theorem invalid_utf8_leaf_is_fatal :
    find_text_part [Part.mk "text/plain" (some ⟨some "_w"⟩) none,
      Part.mk "text/plain" (some ⟨some "SGk"⟩) none] = none ∧
    find_text_part [Part.mk "text/plain" (some ⟨some "SGk"⟩) none] = some "Hi" := by
  constructor
  · decide
  · decide

/-- C4 (amended): whenever base64url decoding of a leaf node's inline
payload fails, that node is treated as not found and the search continues
over the remaining nodes — the result equals the result of the same
search with that undecodable leaf absent. (The original claim also
covered payloads that decode to invalid UTF-8 text; there the code
instead returns `None` for the whole search.) -/
theorem b64_failure_skips_leaf (pre post : List Part) (mt d : String)
    (hfail : b64Decode d = none) :
    find_text_part (pre ++ Part.mk mt (some ⟨some d⟩) none :: post) =
      find_text_part (pre ++ post) :=
  find_text_part_skip pre post _ (scanPart_undecodable_leaf mt d hfail)

theorem b64_failure_skips_leaf_witness :
    find_text_part [Part.mk "text/plain" (some ⟨some "%%%"⟩) none,
      Part.mk "text/plain" (some ⟨some "SGk"⟩) none] =
      find_text_part [Part.mk "text/plain" (some ⟨some "SGk"⟩) none] :=
  b64_failure_skips_leaf [] [Part.mk "text/plain" (some ⟨some "SGk"⟩) none]
    "text/plain" "%%%" (by decide)

/-- C5 (counterexample to the claim as stated): two messages whose
top-level bodies carry the same direct inline data (`"%%%"`, which fails
base64url decoding) but differ in their parts lists get different
results — so a message with direct inline data does inspect `parts`, and
the direct data is not returned. -/
theorem direct_body_failure_reads_parts :
    Message.get_body_text ⟨"m", none, some ⟨none, some ⟨some "%%%"⟩,
      some [Part.mk "text/plain" (some ⟨some "SGk"⟩) none]⟩, none⟩ = some "Hi" ∧
    Message.get_body_text ⟨"m", none, some ⟨none, some ⟨some "%%%"⟩, none⟩, none⟩ = none := by
  constructor
  · decide
  · decide

/-- C5 (amended): for every message whose top-level body carries inline
data that base64url-decodes, `get_body_text` returns the UTF-8 reading of
those bytes immediately, for every value of the parts list — the
children are never inspected. -/
theorem direct_body_decodable_ignores_parts (id : String) (sn : Option String)
    (hdrs : Option (List Header)) (lids : Option (List String))
    (ps : Option (List Part)) (d : String) (bytes : List Nat)
    (hdec : b64Decode d = some bytes) :
    Message.get_body_text ⟨id, sn, some ⟨hdrs, some ⟨some d⟩, ps⟩, lids⟩ = fromUtf8 bytes := by
  unfold Message.get_body_text
  simp [decodeStep, hdec]

theorem direct_body_decodable_ignores_parts_witness :
    Message.get_body_text ⟨"m", none, some ⟨none, some ⟨some "SGk"⟩,
      some [Part.mk "text/plain" (some ⟨some "_w"⟩) none]⟩, none⟩ = fromUtf8 [72, 105] :=
  direct_body_decodable_ignores_parts "m" none none none
    (some [Part.mk "text/plain" (some ⟨some "_w"⟩) none]) "SGk" [72, 105] (by decide)

/-- C6: for a non-system name, resolving for an add-operation over a
listing that contains a case-insensitive match returns the id of the
first match in listing order, lists the labels once, and never issues a
create call. -/
theorem add_resolves_first_match (name : String) (created : Label)
    (pre post : List Label) (l : Label)
    (hsys : is_system_label name = false)
    (hpre : ∀ p ∈ pre, eqIgnoreAsciiCase p.name name = false)
    (hl : eqIgnoreAsciiCase l.name name = true) :
    add_label_resolve (some (pre ++ l :: post)) created name = (l.id, true, false) := by
  unfold add_label_resolve get_or_create_label
  rw [if_neg (by simp [hsys])]
  simp only [findLabelIn_first name pre post l hpre hl]

theorem add_resolves_first_match_witness :
    add_label_resolve (some [⟨"Label_1", "Personal"⟩, ⟨"Label_5", "work"⟩, ⟨"Label_9", "WORK"⟩])
      ⟨"NEW", "Work"⟩ "Work" = ("Label_5", true, false) :=
  add_resolves_first_match "Work" ⟨"NEW", "Work"⟩ [⟨"Label_1", "Personal"⟩]
    [⟨"Label_9", "WORK"⟩] ⟨"Label_5", "work"⟩ (by decide) (by decide) (by decide)

/-- C7: removing a non-system label with no case-insensitive match in the
remote listing fails with the not-found error carrying the offending
name, and the label-modification call is never issued (the resolution
ends in the error, not in an id for `modify_labels`). -/
theorem remove_unknown_label_not_found (name : String) (labels : Option (List Label))
    (hsys : is_system_label name = false)
    (hnone : ∀ l ∈ labels.getD [], eqIgnoreAsciiCase l.name name = false) :
    remove_label_resolve labels name = (.error name, true) := by
  unfold remove_label_resolve
  rw [if_neg (by simp [hsys]), findLabelIn_nomatch name _ hnone]

theorem remove_unknown_label_not_found_witness :
    remove_label_resolve (some [⟨"Label_1", "Personal"⟩]) "Work" = (.error "Work", true) :=
  remove_unknown_label_not_found "Work" (some [⟨"Label_1", "Personal"⟩])
    (by decide) (by decide)

/-- C8: for every member of the fixed system set, resolution for add and
for remove returns the name unchanged as the label id, with no listing
and no create call on either path. -/
theorem system_label_no_remote_calls (name : String) (labels : Option (List Label))
    (created : Label) (hsys : is_system_label name = true) :
    add_label_resolve labels created name = (name, false, false) ∧
    remove_label_resolve labels name = (.ok name, false) := by
  unfold add_label_resolve remove_label_resolve
  simp [hsys]

theorem system_label_no_remote_calls_witness :
    add_label_resolve none ⟨"X", "Y"⟩ "INBOX" = ("INBOX", false, false) ∧
    remove_label_resolve none "INBOX" = (.ok "INBOX", false) :=
  system_label_no_remote_calls "INBOX" none ⟨"X", "Y"⟩ (by decide)

/-- C9: encoding any text (its UTF-8 bytes, base64url without padding) as
the sole direct top-level body of a message and extracting the plain-text
body returns exactly the original text. -/
theorem plain_text_body_roundtrip (t : String) (id : String) (sn : Option String)
    (hdrs : Option (List Header)) (lids : Option (List String)) :
    Message.get_body_text
      ⟨id, sn, some ⟨hdrs, some ⟨some (b64Encode (utf8Encode t))⟩, none⟩, lids⟩ = some t := by
  have hdec := b64Decode_encode (utf8Encode t) (utf8EncodeList_lt_256 t.data)
  unfold Message.get_body_text
  simp [decodeStep, hdec, fromUtf8_utf8Encode]

/-- C10 (implicit): system-set membership is decided by exact,
case-sensitive comparison — a name equal to a system label only up to
case is not a system label, so `add_label` resolves it through the
get-or-create path (it lists, and would create on absence) and
`remove_label` looks it up remotely. -/
theorem system_set_membership_case_sensitive (name sys : String)
    (labels : Option (List Label)) (created : Label)
    (hsys : is_system_label sys = true)
    (hci : eqIgnoreAsciiCase name sys = true)
    (hne : name ≠ sys) :
    is_system_label name = false ∧
    add_label_resolve labels created name =
      ((get_or_create_label labels created name).1, true,
        (get_or_create_label labels created name).2) ∧
    (remove_label_resolve labels name).2 = true := by
  have hn : is_system_label name = false := by
    cases hval : is_system_label name
    · rfl
    · exfalso
      simp only [is_system_label, Bool.or_eq_true, beq_iff_eq] at hval hsys
      rcases hval with (((((((((((rfl | rfl) | rfl) | rfl) | rfl) | rfl) | rfl) | rfl) | rfl) | rfl) | rfl) | rfl) | rfl <;>
        rcases hsys with (((((((((((rfl | rfl) | rfl) | rfl) | rfl) | rfl) | rfl) | rfl) | rfl) | rfl) | rfl) | rfl) | rfl <;>
          first
            | exact hne rfl
            | exact absurd hci (by decide)
  refine ⟨hn, ?_, ?_⟩
  · unfold add_label_resolve
    rw [if_neg (by simp [hn])]
  · unfold remove_label_resolve
    rw [if_neg (by simp [hn])]
    cases findLabelIn name (labels.getD []) <;> rfl

theorem system_set_membership_case_sensitive_witness :
    is_system_label "inbox" = false ∧
    add_label_resolve (some []) ⟨"Label_7", "Inbox"⟩ "inbox" =
      ((get_or_create_label (some []) ⟨"Label_7", "Inbox"⟩ "inbox").1, true,
        (get_or_create_label (some []) ⟨"Label_7", "Inbox"⟩ "inbox").2) ∧
    (remove_label_resolve (some []) "inbox").2 = true :=
  system_set_membership_case_sensitive "inbox" "INBOX" (some []) ⟨"Label_7", "Inbox"⟩
    (by decide) (by decide) (by decide)

end GmailCli
